import Mathlib

/-!
Shallow embedding of `plugins/gaming.py` (dice, coin-flip and choice
evaluation) in Lean 4.

Modelling conventions:

* Python strings are `String` / `List Char`; the regular expressions of the
  source (`valid_diceroll`, `sign_re`, `split_re`, `whitespace_re`) are
  embedded as deterministic matchers.  For each pattern the deterministic
  maximal-munch matcher agrees with the Python backtracking engine: in every
  place where the engine could backtrack, the shorter alternative is
  immediately killed by the following context (an atom must be followed by a
  sign or the end of the string, and a shorter digit run leaves a digit in a
  position where none is allowed), so the greedy parse is the unique parse.
* The shared random generator is an oracle passed explicitly: `randint` calls
  become a function `gi : Nat → Int → Int → Int` mapping (call index, lower,
  upper) to the sample; the rounded `random.normalvariate` draw of
  `approximate_rolls` and the `random.uniform(0.45, 0.55)` based head count of
  `coin` are floating-point computations and are abstracted by integer
  oracles (`nmi`, `u`); `random.choice` is modelled by an oracle index
  reduced modulo the list length, raising `IndexError` on an empty list
  exactly as Python does.
* Machine integers: Python integers are unbounded, so `Int`/`Nat` are exact.
-/

namespace Gaming

/-- `ROLL_LIMIT = 100`, the approximation threshold of the source. -/
def ROLL_LIMIT : Int := 100

/-- Python `\s` (the ASCII part; the inputs of interest are ASCII). -/
def isSpaceCh (c : Char) : Bool :=
  c == ' ' || c == '\t' || c == '\n' || c == '\r' || c == '\x0b' || c == '\x0c'

/-- `whitespace_re.sub("", text)`: delete every whitespace character. -/
def stripWS (s : List Char) : List Char :=
  s.filter (fun c => !(isSpaceCh c))

/-- A `+` or `-` sign character. -/
def isSignCh (c : Char) : Bool := c == '+' || c == '-'

/-- The letter `d`, case-insensitively (the patterns carry `re.I`). -/
def isDCh (c : Char) : Bool := c == 'd' || c == 'D'

/-- The fudge letter `F`, case-insensitively. -/
def isFCh (c : Char) : Bool := c == 'F' || c == 'f'

/-- Split off the maximal leading run of decimal digits (`\d*`). -/
def takeDigits : List Char → List Char × List Char
  | [] => ([], [])
  | c :: cs =>
    if c.isDigit then
      let p := takeDigits cs
      (c :: p.1, p.2)
    else ([], c :: cs)

/-- Match one atom `(?:\d+|\d*d(?:\d+|F))` of `valid_diceroll` at the head of
`s`, returning the remainder on success.  When the `d` branch fails on its
sides, the `\d+` branch (when available) is returned instead, exactly as the
backtracking engine would; the caller then rejects the leftover `d`. -/
def matchAtom (s : List Char) : Option (List Char) :=
  let p := takeDigits s
  match p.2 with
  | [] => if p.1 = [] then none else some []
  | c :: r2 =>
    if isDCh c then
      let q := takeDigits r2
      if q.1 ≠ [] then some q.2
      else
        match r2 with
        | c2 :: r3 => if isFCh c2 then some r3
                      else if p.1 = [] then none else some (c :: r2)
        | [] => if p.1 = [] then none else some (c :: r2)
    else if p.1 = [] then none else some (c :: r2)

/-- After the first atom, the expression is `(?:[+-]atom)*$`: alternately a
sign and an atom until the string ends.  `fuel` only serves termination; the
initial call supplies the string length, which is ample since every
iteration consumes at least two characters. -/
def validTail : Nat → List Char → Bool
  | _, [] => true
  | 0, _ :: _ => false
  | fuel + 1, c :: cs =>
    if isSignCh c then
      match matchAtom cs with
      | some r => validTail fuel r
      | none => false
    else false

/-- The `valid_diceroll` pattern
`^([+-]?(?:\d+|\d*d(?:\d+|F))(?:[+-](?:\d+|\d*d(?:\d+|F)))*)( .+)?$` (re.I)
applied to a whitespace-free string.  Since the description group `( .+)?`
requires a literal space and the `dice` entry point strips all whitespace
before matching, that group always matches empty here and group 1 is the
whole string; this function is the accept/reject verdict. -/
def valid_diceroll (s : List Char) : Bool :=
  let s1 := match s with
    | c :: cs => if isSignCh c then cs else c :: cs
    | [] => []
  match matchAtom s1 with
  | some r => validTail s.length r
  | none => false

/-- Match `sign_re = [+-]?(?:\d*d)?(?:\d+|F)` (re.I) at the head of `s`,
without the optional sign, returning (matched text, remainder). -/
def signCore (s : List Char) : Option (List Char × List Char) :=
  let p := takeDigits s
  match p.2 with
  | [] => if p.1 = [] then none else some (p.1, [])
  | c :: r2 =>
    if isDCh c then
      let q := takeDigits r2
      if q.1 ≠ [] then some (p.1 ++ c :: q.1, q.2)
      else
        match r2 with
        | c2 :: r3 =>
          if isFCh c2 then some (p.1 ++ [c, c2], r3)
          else if p.1 = [] then none else some (p.1, c :: r2)
        | [] => if p.1 = [] then none else some (p.1, c :: r2)
    else if p.1 ≠ [] then some (p.1, c :: r2)
    else if isFCh c then some ([c], r2)
    else none

/-- Match `sign_re` at the head of `s`, including the optional sign.  When a
sign is present but no core follows it, the engine retries with the empty
sign, which also fails because the position still holds the sign character
(not a digit, `d` or `F`); so the whole match fails. -/
def signMatch (s : List Char) : Option (List Char × List Char) :=
  match s with
  | [] => none
  | c :: cs =>
    if isSignCh c then
      match signCore cs with
      | some t => some (c :: t.1, t.2)
      | none => none
    else signCore (c :: cs)

/-- `sign_re.findall(spec)`: scan left to right, emitting each
non-overlapping match and skipping one character where no match starts.
`fuel` (initially the string length) only serves termination. -/
def sign_findall : Nat → List Char → List (List Char)
  | 0, _ => []
  | _, [] => []
  | fuel + 1, c :: cs =>
    match signMatch (c :: cs) with
    | some t => t.1 :: sign_findall fuel t.2
    | none => sign_findall fuel cs

/-- A character of the `split_re` count class `[\d+-]`. -/
def isCountCh (c : Char) : Bool := c.isDigit || c == '+' || c == '-'

/-- `split_re.match(roll).groups()` for `split_re = ([\d+-]*)d?(F|\d*)`
(re.I): the greedy count group, an optional `d`, then `F` or a digit run.
The pattern can always complete with empty groups, so no backtracking ever
shrinks the greedy count group. -/
def split_groups (s : List Char) : List Char × List Char :=
  let cnt := s.takeWhile isCountCh
  let r := s.dropWhile isCountCh
  let r2 := match r with
    | c :: rest => if isDCh c then rest else c :: rest
    | [] => ([] : List Char)
  match r2 with
  | c :: _ => if isFCh c then (cnt, [c]) else (cnt, r2.takeWhile Char.isDigit)
  | [] => (cnt, [])

/-- Numeric value of a digit string (`int` on digits, leading zeros allowed). -/
def digitsToNat (ds : List Char) : Nat :=
  ds.foldl (fun a c => a * 10 + (c.toNat - 48)) 0

/-- Python `int` on an optionally signed digit string. -/
def parseInt (s : List Char) : Int :=
  match s with
  | '+' :: ds => (digitsToNat ds : Int)
  | '-' :: ds => -(digitsToNat ds : Int)
  | ds => (digitsToNat ds : Int)

/-- The count conversion of the `dice` loop:
`count = int(count) if count not in " +-" else 1`.
Python's `in` on strings is the substring test, so the default branch fires
exactly when the count group is one of the seven contiguous substrings of
`" +-"` (including the empty string) — in particular a bare `"-"` becomes
`1`, not `-1`. -/
def term_count (cnt : List Char) : Int :=
  if cnt = [] ∨ cnt = [' '] ∨ cnt = ['+'] ∨ cnt = ['-'] ∨
     cnt = [' ', '+'] ∨ cnt = ['+', '-'] ∨ cnt = [' ', '+', '-'] then 1
  else parseInt cnt

/-- Decimal digits of `n`, least significant first; `fuel` bounds recursion. -/
def natToDigitsRev : Nat → Nat → List Char
  | 0, _ => []
  | _ + 1, 0 => []
  | fuel + 1, n + 1 => Char.ofNat (48 + (n + 1) % 10) :: natToDigitsRev fuel ((n + 1) / 10)

/-- Decimal representation of a natural number, Python `str` style. -/
def natToStr (n : Nat) : List Char :=
  if n = 0 then ['0'] else (natToDigitsRev n n).reverse

/-- Python `str` on an integer. -/
def intToStr (i : Int) : String :=
  if i < 0 then String.mk ('-' :: natToStr (-i).toNat) else String.mk (natToStr i.toNat)

/-- The `sides` argument of `n_rolls` / `simulate_rolls`: the source passes
either an `int` or the literal string `"F"`. -/
inductive PySides where
  | ofInt : Int → PySides
  | ofStr : List Char → PySides
deriving DecidableEq

/-- `fudge = sides in ('f', 'F')` of `n_rolls` (tuple membership, not the
substring test). -/
def sidesIsFudge : PySides → Bool
  | PySides.ofInt _ => false
  | PySides.ofStr s => s == ['f'] || s == ['F']

/-- `simulate_rolls`: bounds `(-1, 1)` for fudge dice, otherwise
`sorted((sides, 1))`, then one `random.randint(lower, upper)` per roll
(`range` of a negative count is empty).  A non-fudge string `sides` would
raise `TypeError` in `sorted` in Python; `dice` only ever reaches the
non-fudge case with an integer `sides`, so the `(0, 0)` bounds of that dead
branch are never exercised. -/
def simulate_rolls (gi : Nat → Int → Int → Int) (roll_cnt : Int) (sides : PySides)
    (fudge : Bool) : List Int :=
  let lu : Int × Int :=
    if fudge then (-1, 1)
    else
      match sides with
      | PySides.ofInt n => (min n 1, max n 1)
      | PySides.ofStr _ => (0, 0)
  (List.range roll_cnt.toNat).map (fun i => gi i lu.1 lu.2)

/-- `approximate_rolls`: a single-element list holding the rounded normal
variate.  The mean/variance computation (`find_mid_var`,
`find_adjusted_variance`, the `FUDGE_MEAN`/`FUDGE_VAR` constants) only
parameterises the floating-point distribution the sample is drawn from, and
is abstracted into the integer oracle `nmi`; the list structure `[round(...)]`
is the source's. -/
def approximate_rolls (nmi : Int) (roll_cnt : Int) (sides : PySides)
    (fudge : Bool) : List Int :=
  [nmi]

/-- `n_rolls`: exact simulation below `ROLL_LIMIT`, approximation at or
above it. -/
def n_rolls (gi : Nat → Int → Int → Int) (nmi : Int) (roll_cnt : Int)
    (sides : PySides) : List Int :=
  let fudge := sidesIsFudge sides
  if roll_cnt < ROLL_LIMIT then simulate_rolls gi roll_cnt sides fudge
  else approximate_rolls nmi roll_cnt sides fudge

/-- Display token of one fudge outcome (`"\x033+\x0F"`, `"\x034-\x0F"`, `"0"`). -/
def fudgeToken (v : Int) : String :=
  if v = 1 then "\x033+\x0F" else if v = -1 then "\x034-\x0F" else "0"

/-- `side.upper() == "F"` on a `split_re` side group (a digit run, empty, or
a single `F`/`f`). -/
def sideIsF (side : List Char) : Bool := side == ['F'] || side == ['f']

/-- One iteration of the `dice` term loop on state (total, rolls) and one
`sign_re` token: split the token into count and side groups, then either a
fudge term, a bare constant, or an ordinary dice term (sign handled by the
caller via `-count` and negated display tokens). -/
def processRoll (gi : Nat → Int → Int → Int) (nmi : Int) (st : Int × List String)
    (roll : List Char) : Int × List String :=
  let cs := split_groups roll
  let count := term_count cs.1
  let side := cs.2
  if sideIsF side then
    let vs := n_rolls gi nmi count (PySides.ofStr ['F'])
    (st.1 + vs.sum, st.2 ++ vs.map fudgeToken)
  else if side = [] then
    (st.1 + count, st.2)
  else
    let sd : Int := (digitsToNat side : Int)
    if 0 < count then
      let d := n_rolls gi nmi count (PySides.ofInt sd)
      (st.1 + d.sum, st.2 ++ d.map (fun x => intToStr x))
    else
      let d := n_rolls gi nmi (-count) (PySides.ofInt sd)
      (st.1 - d.sum, st.2 ++ d.map (fun x => intToStr (-x)))

/-- `INVALID_ROLL.format(text)`; the `{!r}` repr quoting is rendered with
plain single quotes (exact for texts without quotes or escapes, and no claim
inspects this message). -/
def invalidRollMsg (text : String) : String :=
  "Invalid dice roll '" ++ text ++ "'"

/-- Outcome of the `dice` entry point: an error notice, a silent `return`
(no output, no error), or the returned formatted string. -/
inductive DiceResult where
  | notice : String → DiceResult
  | silentNone : DiceResult
  | output : String → DiceResult
deriving DecidableEq

/-- Comma-and-space join of the roll tokens (`", ".join(rolls)`). -/
def joinComma : List String → String
  | [] => ""
  | [s] => s
  | s :: s2 :: rest => s ++ ", " ++ joinComma (s2 :: rest)

/-- The `dice` entry point on a plain string argument (the match-object
branch is the adapter handing over pre-split groups and is outside the
core).  Whitespace is removed, the grammar is checked (`notice` on
failure), a lowercase-`d` presence test gates evaluation (silent `return`
otherwise), the (dead, always-true) revalidation of the source is kept, and
the term loop folds over the `sign_re` tokens.  Group 2 (`desc`) is always
`None` on this path, so the label-free format is produced.  The RNG oracle
`g` is indexed per term and per call; `nm` supplies the per-term rounded
normal variate of the approximation mode. -/
def dice (g : Nat → Nat → Int → Int → Int) (nm : Nat → Int) (text : String) : DiceResult :=
  let stripped := stripWS text.data
  if valid_diceroll stripped then
    if 'd' ∈ stripped then
      let spec := stripWS stripped
      if valid_diceroll spec then
        let groups := sign_findall spec.length spec
        let r := groups.enum.foldl
          (fun st p => processRoll (g p.1) (nm p.1) st p.2) ((0 : Int), ([] : List String))
        DiceResult.output (intToStr r.1 ++ " (" ++ joinComma r.2 ++ ")")
      else DiceResult.notice (invalidRollMsg (String.mk stripped))
    else DiceResult.silentNone
  else DiceResult.notice (invalidRollMsg text)

/- ----------------------------  choose  ---------------------------- -/

/-- Python `str.strip()`: drop leading and trailing whitespace. -/
def pyStrip (s : List Char) : List Char :=
  ((s.dropWhile (fun c => isSpaceCh c)).reverse.dropWhile (fun c => isSpaceCh c)).reverse

/-- `re.findall(r'([^,]+)', s)`: the maximal nonempty runs of non-comma
characters, in order.  `fuel` (initially the length) only serves
termination. -/
def commaSegments : Nat → List Char → List (List Char)
  | 0, _ => []
  | _, [] => []
  | fuel + 1, c :: cs =>
    if c = ',' then commaSegments fuel cs
    else
      let t := (c :: cs).takeWhile (fun x => !(x == ','))
      t :: commaSegments fuel ((c :: cs).dropWhile (fun x => !(x == ',')))

/-- Comma segmentation with the standard fuel. -/
def commaSegs (s : List Char) : List (List Char) :=
  commaSegments s.length s

/-- The separator `" or "` of `choices[0].split(' or ')`. -/
def orSep : List Char := [' ', 'o', 'r', ' ']

/-- Python `str.split(sep)` (nonempty separator): split at each leftmost
non-overlapping occurrence, keeping empty pieces.  `fuel` only serves
termination. -/
def splitOnAux (sep : List Char) : Nat → List Char → List Char → List (List Char)
  | _, acc, [] => [acc.reverse]
  | 0, acc, rest => [acc.reverse ++ rest]
  | fuel + 1, acc, c :: cs =>
    if sep.isPrefixOf (c :: cs) then
      acc.reverse :: splitOnAux sep fuel [] ((c :: cs).drop sep.length)
    else splitOnAux sep fuel (c :: acc) cs

/-- `x.split(' or ')`. -/
def splitOr (s : List Char) : List (List Char) :=
  splitOnAux orSep s.length [] s

/-- Outcome of `choose`: the usage-help notice, a returned choice, or the
uncaught `IndexError` that `random.choice` raises on an empty list. -/
inductive ChooseResult where
  | noticeDoc : ChooseResult
  | choice : String → ChooseResult
  | indexError : ChooseResult
deriving DecidableEq

/-- `random.choice(cs)` with the selection oracle `pick` reduced modulo the
length; `IndexError` on the empty list. -/
def pickChoice (pick : Nat) : List String → ChooseResult
  | [] => ChooseResult.indexError
  | c :: cs => ChooseResult.choice ((c :: cs).getD (pick % (c :: cs).length) "")

/-- The `choose` entry point: comma segmentation of the stripped text; when
exactly one segment remains, an `' or '` split; when that still yields one
choice, the usage notice; otherwise a random choice among the
whitespace-stripped candidates. -/
def choose (pick : Nat) (text : String) : ChooseResult :=
  let choices := commaSegs (pyStrip text.data)
  if choices.length = 1 then
    let choices2 := splitOr (choices.getD 0 [])
    if choices2.length = 1 then ChooseResult.noticeDoc
    else pickChoice pick (choices2.map (fun c => String.mk (pyStrip c)))
  else pickChoice pick (choices.map (fun c => String.mk (pyStrip c)))

/- -----------------------------  coin  ----------------------------- -/

/-- `NO_COIN`. -/
def NO_COIN : String := "makes a coin flipping motion"

/-- `SINGLE_COIN.format(side)`. -/
def SINGLE_COIN (side : String) : String :=
  "flips a coin and gets " ++ side ++ "."

/-- `MANY_COINS.format(amount, heads, tails)`. -/
def MANY_COINS (n h t : Int) : String :=
  "flips " ++ intToStr n ++ " coins and gets " ++ intToStr h ++ " heads and " ++
    intToStr t ++ " tails."

/-- Outcome of the `coin` entry point: an error notice or an action
message. -/
inductive CoinResult where
  | notice : String → CoinResult
  | action : String → CoinResult
deriving DecidableEq

/-- The head count of the many-coins branch: below `ROLL_LIMIT` the exact
sum of `amount` fair flips (`random.randint(0, 1)`, empty for a negative
amount), otherwise `round(amount * random.uniform(0.45, 0.55))`, a
floating-point draw abstracted by the integer oracle `u`. -/
def coin_heads (gi : Nat → Int → Int → Int) (u : Int) (amount : Int) : Int :=
  if amount < ROLL_LIMIT then ((List.range amount.toNat).map (fun i => gi i 0 1)).sum
  else u

/-- The `coin` entry point after the integer parse of its optional text
argument (the parse and its `INVALID_NUMBER` notice are the adapter
boundary; the spec's contract is "given a requested flip count").  `pick`
resolves the single-coin `random.choice(['heads', 'tails'])`. -/
def coin (gi : Nat → Int → Int → Int) (u : Int) (pick : Bool) (amount : Int) : CoinResult :=
  if amount = 0 then CoinResult.action NO_COIN
  else if amount = 1 then
    CoinResult.action (SINGLE_COIN (if pick then "heads" else "tails"))
  else
    let heads := coin_heads gi u amount
    CoinResult.action (MANY_COINS amount heads (amount - heads))

/-- An RNG oracle is admissible when every `randint(lo, hi)` call with
`lo ≤ hi` returns a value in the inclusive range, as Python guarantees. -/
def rngOk (gi : Nat → Int → Int → Int) : Prop :=
  ∀ i lo hi, lo ≤ hi → lo ≤ gi i lo hi ∧ gi i lo hi ≤ hi

/- ===========================  theorems  =========================== -/

/-- Below the threshold, `n_rolls` is the exact simulation. -/
theorem n_rolls_of_lt (gi : Nat → Int → Int → Int) (nmi : Int) (roll_cnt : Int)
    (sides : PySides) (h : roll_cnt < ROLL_LIMIT) :
    n_rolls gi nmi roll_cnt sides = simulate_rolls gi roll_cnt sides (sidesIsFudge sides) := by
  simp [n_rolls, h]

/-- `random.choice` on a nonempty list returns a member of the list. -/
theorem pickChoice_mem (pick : Nat) (c : String) (cs : List String) :
    ∃ s ∈ c :: cs, pickChoice pick (c :: cs) = ChooseResult.choice s := by
  have hlt : pick % (c :: cs).length < (c :: cs).length :=
    Nat.mod_lt _ (by simp)
  refine ⟨(c :: cs).getD (pick % (c :: cs).length) "", ?_, rfl⟩
  rw [List.getD_eq_getElem _ _ hlt]
  exact List.getElem_mem hlt

/-- C1: the claim (and the docstring of `dice` itself: "2d20-d5+4 …
subtract 1D5") says a bare `-` multiplicity means "subtract one roll".
The code's substring test `count not in " +-"` turns the count group `"-"`
into `+1`, so `-d6` *adds* its roll: with an oracle that always returns 4,
the displayed result of `-d6` is `4 (4)` instead of `-4 (-4)`. -/
theorem dice_C1_bug :
    term_count ['-'] = 1 ∧
    dice (fun _ _ _ _ => 4) (fun _ => 0) "-d6" = DiceResult.output "4 (4)" := by
  constructor
  · decide
  · decide

/-- C2 (counterexample): the claim says a fudge term with negative
multiplicity, such as `-2dF`, produces `abs(count) = 2` outcomes whose sum
is subtracted.  In the code the fudge branch passes the raw negative count
to the evaluator, whose `range(-2)` is empty: `-2dF` evaluates with zero
outcomes and a total of 0. -/
theorem dice_C2_counterexample :
    n_rolls (fun _ _ _ => 1) 0 (-2) (PySides.ofStr ['F']) = [] ∧
    dice (fun _ _ _ _ => 1) (fun _ => 0) "-2dF" = DiceResult.output "0 ()" := by
  constructor
  · decide
  · decide

/-- C2 (amended): for a negative multiplicity, only the ordinary
(numeric-sided) branch works with `abs(count)` — the caller negates the
count before calling the evaluator, subtracts the evaluator's sum from the
total and negates the display tokens, and below the threshold the
evaluator returns `abs(count)` outcomes.  The fudge branch passes the raw
negative count, so the evaluator returns no outcomes at all and the term
leaves the loop state unchanged. -/
theorem dice_C2_amended (gi : Nat → Int → Int → Int) (nmi : Int) (count : Int)
    (hneg : count < 0) :
    n_rolls gi nmi count (PySides.ofStr ['F']) = [] ∧
    (∀ st roll cnt, split_groups roll = (cnt, ['F']) → term_count cnt = count →
      processRoll gi nmi st roll = st) ∧
    (∀ st roll cnt side, split_groups roll = (cnt, side) → term_count cnt = count →
      side ≠ [] → sideIsF side = false →
      processRoll gi nmi st roll =
        (st.1 - (n_rolls gi nmi |count| (PySides.ofInt (digitsToNat side))).sum,
         st.2 ++ (n_rolls gi nmi |count| (PySides.ofInt (digitsToNat side))).map
           (fun x => intToStr (-x))) ∧
      (-ROLL_LIMIT < count →
        (n_rolls gi nmi |count| (PySides.ofInt (digitsToNat side))).length = count.natAbs)) := by
  have hlim : count < ROLL_LIMIT := by
    simp only [ROLL_LIMIT]; omega
  have hempty : n_rolls gi nmi count (PySides.ofStr ['F']) = [] := by
    rw [n_rolls_of_lt _ _ _ _ hlim]
    simp [simulate_rolls, Int.toNat_of_nonpos (le_of_lt hneg)]
  refine ⟨hempty, ?_, ?_⟩
  · intro st roll cnt hsplit hcnt
    simp only [processRoll, hsplit]
    have : sideIsF ['F'] = true := by decide
    simp [this, hcnt, hempty]
  · intro st roll cnt side hsplit hcnt hne hnf
    have habs : |count| = -count := abs_of_neg hneg
    have hpos : ¬ 0 < count := by omega
    constructor
    · simp only [processRoll, hsplit, hnf, Bool.false_eq_true, if_false, hne, if_neg hpos,
        hcnt, habs]
    · intro hgt
      have hlt2 : |count| < ROLL_LIMIT := by
        simp only [ROLL_LIMIT] at *; omega
      rw [n_rolls_of_lt _ _ _ _ hlt2]
      simp only [simulate_rolls, sidesIsFudge, List.length_map, List.length_range]
      omega

/-- C2 (witness): at `count = -2` the fudge evaluator indeed returns no
outcomes. -/
theorem dice_C2_witness :
    n_rolls (fun _ _ _ => 5) 9 (-2) (PySides.ofStr ['F']) = [] :=
  (dice_C2_amended (fun _ _ _ => 5) 9 (-2) (by decide)).1

/-- C3 (counterexample): the claim says a zero multiplicity defaults to 1,
so `0d6` is rolled once.  The code only defaults when the count group is a
substring of `" +-"`; `"0"` is parsed by `int` and stays 0, the term takes
the non-positive branch, and `range(0)` rolls nothing: with an oracle that
always returns 4, `0d6` displays `0 ()` — zero roll tokens — where one roll
would display `4 (4)`. -/
theorem dice_C3_counterexample :
    dice (fun _ _ _ _ => 4) (fun _ => 0) "0d6" = DiceResult.output "0 ()" := by
  decide

/-- C3 (amended): an absent multiplicity or a bare sign defaults to 1, but
an explicit zero multiplicity is kept as 0, so `0d6` is rolled zero times
and contributes nothing. -/
theorem dice_C3_amended :
    term_count [] = 1 ∧ term_count ['+'] = 1 ∧ term_count ['-'] = 1 ∧
    term_count ['0'] = 0 ∧
    ∀ (g : Nat → Nat → Int → Int → Int) (nm : Nat → Int),
      dice g nm "0d6" = DiceResult.output "0 ()" := by
  refine ⟨by decide, by decide, by decide, by decide, fun g nm => ?_⟩
  rfl

/-- C4 (counterexample): `2D6` is accepted by the case-insensitive grammar,
but the entry point's dice-presence test looks for a lowercase `d` only, so
`2D6` is silently ignored instead of producing a formatted result. -/
theorem dice_C4_counterexample :
    valid_diceroll (stripWS (String.data "2D6")) = true ∧
    dice (fun _ _ _ _ => 4) (fun _ => 0) "2D6" = DiceResult.silentNone := by
  constructor
  · decide
  · decide

/-- C4 (amended): grammar matching is case-insensitive for `d`/`F`, but the
entry point evaluates only expressions containing a lowercase `d`; every
validated expression containing `D` and no `d` is silently ignored (no
output and no error notice). -/
theorem dice_C4_amended (g : Nat → Nat → Int → Int → Int) (nm : Nat → Int) (text : String)
    (hv : valid_diceroll (stripWS text.data) = true)
    (hd : 'd' ∉ stripWS text.data) (hD : 'D' ∈ stripWS text.data) :
    dice g nm text = DiceResult.silentNone := by
  unfold dice
  simp [hv, hd]

/-- C4 (witness): the amended statement at the concrete input `2D6`. -/
theorem dice_C4_witness :
    dice (fun _ _ _ _ => 2) (fun _ => 1) "2D6" = DiceResult.silentNone :=
  dice_C4_amended (fun _ _ _ _ => 2) (fun _ => 1) "2D6" (by decide) (by decide) (by decide)

/-- C5: below the threshold the evaluator simulates exactly: for any
admissible RNG oracle and `1 ≤ count < ROLL_LIMIT`, it returns exactly
`count` outcomes; for an ordinary die with `sides ≥ 1` each outcome lies in
`[1, sides]`, for a fudge die each outcome is `-1`, `0` or `1`, and for a
degenerate die with `sides < 1` the sorted bounds `(sides, 1)` confine each
outcome to `[sides, 1]`. -/
theorem n_rolls_C5 (gi : Nat → Int → Int → Int) (nmi : Int) (count : Int)
    (hg : rngOk gi) (h1 : 1 ≤ count) (h2 : count < ROLL_LIMIT) :
    (∀ sides : Int, 1 ≤ sides →
      (n_rolls gi nmi count (PySides.ofInt sides)).length = count.toNat ∧
      ∀ x ∈ n_rolls gi nmi count (PySides.ofInt sides), 1 ≤ x ∧ x ≤ sides) ∧
    ((n_rolls gi nmi count (PySides.ofStr ['F'])).length = count.toNat ∧
      ∀ x ∈ n_rolls gi nmi count (PySides.ofStr ['F']), x = -1 ∨ x = 0 ∨ x = 1) ∧
    (∀ sides : Int, sides < 1 →
      (n_rolls gi nmi count (PySides.ofInt sides)).length = count.toNat ∧
      ∀ x ∈ n_rolls gi nmi count (PySides.ofInt sides), sides ≤ x ∧ x ≤ 1) := by
  have hfF : sidesIsFudge (PySides.ofStr ['F']) = true := by decide
  refine ⟨?_, ?_, ?_⟩
  · intro sides hs
    rw [n_rolls_of_lt _ _ _ _ h2]
    have hmin : min sides 1 = 1 := min_eq_right hs
    have hmax : max sides 1 = sides := max_eq_left hs
    constructor
    · simp [simulate_rolls]
    · intro x hx
      simp only [simulate_rolls, sidesIsFudge, Bool.false_eq_true, if_false,
        List.mem_map, List.mem_range, hmin, hmax] at hx
      obtain ⟨i, -, rfl⟩ := hx
      exact hg i 1 sides hs
  · rw [n_rolls_of_lt _ _ _ _ h2, hfF]
    constructor
    · simp [simulate_rolls]
    · intro x hx
      simp only [simulate_rolls, if_true, List.mem_map, List.mem_range] at hx
      obtain ⟨i, -, rfl⟩ := hx
      have := hg i (-1) 1 (by norm_num)
      omega
  · intro sides hs
    rw [n_rolls_of_lt _ _ _ _ h2]
    have hmin : min sides 1 = sides := min_eq_left (le_of_lt hs)
    have hmax : max sides 1 = 1 := max_eq_right (le_of_lt hs)
    constructor
    · simp [simulate_rolls]
    · intro x hx
      simp only [simulate_rolls, sidesIsFudge, Bool.false_eq_true, if_false,
        List.mem_map, List.mem_range, hmin, hmax] at hx
      obtain ⟨i, -, rfl⟩ := hx
      exact hg i sides 1 (le_of_lt hs)

/-- C5 (witness): three six-sided rolls under the low-end oracle give three
outcomes. -/
theorem n_rolls_C5_witness :
    (n_rolls (fun _ lo _ => lo) 0 3 (PySides.ofInt 6)).length = (3 : Int).toNat :=
  ((n_rolls_C5 (fun _ lo _ => lo) 0 3 (fun _ lo _ h => ⟨le_refl lo, h⟩)
    (by decide) (by decide)).1 6 (by decide)).1

/-- C6: at or above the threshold the evaluator returns the single-element
aggregate sequence (the rounded normal variate), never one outcome per
requested die, for every sides specification including fudge. -/
theorem n_rolls_C6 (gi : Nat → Int → Int → Int) (nmi : Int) (count : Int)
    (sides : PySides) (h : ROLL_LIMIT ≤ count) :
    n_rolls gi nmi count sides = [nmi] ∧ (n_rolls gi nmi count sides).length = 1 := by
  have hnl : ¬ count < ROLL_LIMIT := not_lt.mpr h
  constructor
  · simp [n_rolls, hnl, approximate_rolls]
  · simp [n_rolls, hnl, approximate_rolls]

/-- C6 (witness): 100 requested dice produce exactly the one aggregate
value. -/
theorem n_rolls_C6_witness :
    n_rolls (fun _ lo _ => lo) 3 100 (PySides.ofInt 6) = [3] :=
  (n_rolls_C6 (fun _ lo _ => lo) 3 100 (PySides.ofInt 6) (by decide)).1

/-- C7: an input whose whitespace-stripped form matches the grammar but
contains no `d` at all (neither case) is silently ignored by the `dice`
entry point: no output and no error notice. -/
theorem dice_C7 (g : Nat → Nat → Int → Int → Int) (nm : Nat → Int) (text : String)
    (hv : valid_diceroll (stripWS text.data) = true)
    (hd : 'd' ∉ stripWS text.data) (hD : 'D' ∉ stripWS text.data) :
    dice g nm text = DiceResult.silentNone := by
  unfold dice
  simp [hv, hd]

/-- C7 (witness): the pure constant expression `42` is validated and
silently ignored. -/
theorem dice_C7_witness :
    dice (fun _ _ _ _ => 0) (fun _ => 0) "42" = DiceResult.silentNone :=
  dice_C7 (fun _ _ _ _ => 0) (fun _ => 0) "42" (by decide) (by decide) (by decide)

/-- C8: for every amount `n ≥ 2` the many-coins message reports the head
count together with `tails = n - heads`, so heads + tails = n exactly; below
the threshold heads is the exact simulation sum, at or above it heads is the
jittered approximation draw. -/
theorem coin_C8 (gi : Nat → Int → Int → Int) (u : Int) (pick : Bool) (amount : Int)
    (h2 : 2 ≤ amount) :
    coin gi u pick amount =
      CoinResult.action (MANY_COINS amount (coin_heads gi u amount)
        (amount - coin_heads gi u amount)) ∧
    coin_heads gi u amount + (amount - coin_heads gi u amount) = amount ∧
    (amount < ROLL_LIMIT →
      coin_heads gi u amount = ((List.range amount.toNat).map (fun i => gi i 0 1)).sum) ∧
    (ROLL_LIMIT ≤ amount → coin_heads gi u amount = u) := by
  have h0 : amount ≠ 0 := by omega
  have h1 : amount ≠ 1 := by omega
  refine ⟨by simp [coin, h0, h1], by ring, fun h => by simp [coin_heads, h],
    fun h => by simp [coin_heads, not_lt.mpr h]⟩

/-- C8 (witness): 1000 flips report counts summing to exactly 1000. -/
theorem coin_C8_witness :
    coin_heads (fun _ _ _ => 1) 7 1000 + (1000 - coin_heads (fun _ _ _ => 1) 7 1000)
      = 1000 :=
  (coin_C8 (fun _ _ _ => 1) 7 true 1000 (by decide)).2.1

/-- C9 (counterexample): the claim says `choose` either signals the
usage-help condition (exactly one choice) or returns one of the given
choices.  An input consisting of commas only yields zero comma segments, so
the code reaches `random.choice([])`, which raises an uncaught `IndexError`
— neither the notice nor a returned choice. -/
theorem choose_C9_counterexample :
    choose 0 "," = ChooseResult.indexError := by
  decide

/-- C9 (amended): `choose` splits on commas (dropping empty segments), and
when exactly one comma-free segment remains splits it on the literal
`" or "`; exactly one remaining choice signals the usage-help notice, two or
more yield one of the given choices trimmed of surrounding whitespace — but
an input with no comma segment at all (only commas, or empty) reaches
`random.choice` on an empty list, an uncaught `IndexError`. -/
theorem choose_C9_amended :
    (∀ (pick : Nat) (text : String),
      commaSegs (pyStrip text.data) = [] → choose pick text = ChooseResult.indexError) ∧
    (∀ (pick : Nat) (text : String) (x y : List Char),
      commaSegs (pyStrip text.data) = [x] → splitOr x = [y] →
      choose pick text = ChooseResult.noticeDoc) ∧
    (∀ (pick : Nat) (text : String) (x : List Char) (ys : List (List Char)),
      commaSegs (pyStrip text.data) = [x] → splitOr x = ys → 2 ≤ ys.length →
      ∃ c ∈ ys, choose pick text = ChooseResult.choice (String.mk (pyStrip c))) ∧
    (∀ (pick : Nat) (text : String) (segs : List (List Char)),
      commaSegs (pyStrip text.data) = segs → 2 ≤ segs.length →
      ∃ c ∈ segs, choose pick text = ChooseResult.choice (String.mk (pyStrip c))) := by
  refine ⟨?_, ?_, ?_, ?_⟩
  · intro pick text h
    simp [choose, h, pickChoice]
  · intro pick text x y h1 h2
    simp [choose, h1, h2]
  · intro pick text x ys h1 h2 hlen
    match ys, hlen with
    | a :: b :: t, _ =>
      have hC : choose pick text
          = pickChoice pick ((a :: b :: t).map (fun c => String.mk (pyStrip c))) := by
        simp [choose, h1, h2]
      obtain ⟨s, hs, heq⟩ := pickChoice_mem pick (String.mk (pyStrip a))
        ((b :: t).map (fun c => String.mk (pyStrip c)))
      have hs2 : s ∈ (a :: b :: t).map (fun c => String.mk (pyStrip c)) := hs
      obtain ⟨c, hc, rfl⟩ := List.mem_map.mp hs2
      exact ⟨c, hc, by rw [hC]; exact heq⟩
  · intro pick text segs h1 hlen
    match segs, hlen with
    | a :: b :: t, _ =>
      have hC : choose pick text
          = pickChoice pick ((a :: b :: t).map (fun c => String.mk (pyStrip c))) := by
        simp [choose, h1]
      obtain ⟨s, hs, heq⟩ := pickChoice_mem pick (String.mk (pyStrip a))
        ((b :: t).map (fun c => String.mk (pyStrip c)))
      have hs2 : s ∈ (a :: b :: t).map (fun c => String.mk (pyStrip c)) := hs
      obtain ⟨c, hc, rfl⟩ := List.mem_map.mp hs2
      exact ⟨c, hc, by rw [hC]; exact heq⟩

/-- C9 (witness): a single unsplittable choice signals the usage-help
notice. -/
theorem choose_C9_witness :
    choose 0 "pizza" = ChooseResult.noticeDoc :=
  choose_C9_amended.2.1 0 "pizza" (String.data "pizza") (String.data "pizza")
    (by decide) (by decide)

/-- C10: a negative amount raises no error: it is neither 0 nor 1 and lies
below the threshold, the simulation over `range(n)` is empty, and the
action message reports 0 heads and `n` (negative) tails. -/
theorem coin_C10 (gi : Nat → Int → Int → Int) (u : Int) (pick : Bool) (amount : Int)
    (hneg : amount < 0) :
    coin gi u pick amount = CoinResult.action (MANY_COINS amount 0 amount) ∧
    coin_heads gi u amount = 0 := by
  have h0 : amount ≠ 0 := by omega
  have h1 : amount ≠ 1 := by omega
  have hlim : amount < ROLL_LIMIT := by simp only [ROLL_LIMIT]; omega
  have hh : coin_heads gi u amount = 0 := by
    simp [coin_heads, hlim, Int.toNat_of_nonpos (le_of_lt hneg)]
  refine ⟨?_, hh⟩
  simp [coin, h0, h1, hh]

/-- C10 (witness): `-5` coins report 0 heads and `-5` tails via the action
message, with no error notice. -/
theorem coin_C10_witness :
    coin (fun _ _ _ => 1) 7 true (-5) = CoinResult.action (MANY_COINS (-5) 0 (-5)) :=
  (coin_C10 (fun _ _ _ => 1) 7 true (-5) (by decide)).1

end Gaming
